import Mathlib

/-!
Verification of the nue-cli asynchronous job lifecycle and bulk-data staging
subsystem. Definitions are shallow embeddings of the JavaScript source:
`src/utils/jobManager.js`, `src/utils/apiClient.js`, `src/utils/errorHandler.js`,
`src/utils/fileUtils.js`, `src/services/strategy/exportStrategies.js`, and
`src/commands/platform/metadata/import.js`. JavaScript strings are modelled as
`List Char`; the Node/JS builtins used by the code (`String.prototype.split`,
`join`, `trim`, `toLowerCase`, `includes`) are modelled explicitly below on the
ASCII fragment the code exercises.
-/

set_option autoImplicit false

/-- A JavaScript string, modelled as its list of characters. -/
abbrev JSStr := List Char

/-- Conversion from a Lean string literal to the `JSStr` model. -/
def str (s : String) : JSStr := s.toList

/-- Model of `String.prototype.split(sep)` for a one-character separator:
`"".split(c) = [""]`, and each occurrence of `c` starts a new fragment. -/
def jsSplitChar (sep : Char) : List Char → List (List Char)
  | [] => [[]]
  | c :: cs =>
    let r := jsSplitChar sep cs
    if c = sep then [] :: r
    else
      match r with
      | [] => [[c]]
      | l :: ls => (c :: l) :: ls

/-- Model of `Array.prototype.join(sep)` for a one-character separator. -/
def jsJoinChar (sep : Char) : List (List Char) → List Char
  | [] => []
  | [l] => l
  | l :: l' :: ls => l ++ sep :: jsJoinChar sep (l' :: ls)

/-- The whitespace characters relevant to `String.prototype.trim` in this
code base (the staged files are ASCII). -/
def jsIsWs (c : Char) : Bool :=
  c = ' ' || c = '\t' || c = '\n' || c = '\r'

/-- Model of `String.prototype.trim` (ASCII fragment): drop whitespace from
both ends. -/
def jsTrim (s : List Char) : List Char :=
  ((((s.dropWhile jsIsWs).reverse).dropWhile jsIsWs)).reverse

/-- Model of `String.prototype.toLowerCase` on a single character (ASCII
fragment): `'A'..'Z'` map to `'a'..'z'`, everything else is unchanged. -/
def jsLowerChar (c : Char) : Char :=
  if 65 ≤ c.toNat ∧ c.toNat ≤ 90 then Char.ofNat (c.toNat + 32) else c

/-- Model of `String.prototype.toLowerCase` (ASCII fragment). -/
def jsToLowerL (s : JSStr) : JSStr := s.map jsLowerChar

/-- Does `needle` occur at the very start of `hay`? (helper for `jsIncludes`). -/
def leadsWith : JSStr → JSStr → Bool
  | [], _ => true
  | _ :: _, [] => false
  | a :: as, b :: bs => a == b && leadsWith as bs

/-- Model of `String.prototype.includes`: substring occurrence test. -/
def jsIncludes (needle : JSStr) : JSStr → Bool
  | [] => leadsWith needle []
  | b :: bs => leadsWith needle (b :: bs) || jsIncludes needle bs

/-! ### Basic lemmas about the string model -/

theorem jsSplitChar_ne_nil (sep : Char) (s : List Char) : jsSplitChar sep s ≠ [] := by
  induction s with
  | nil => simp [jsSplitChar]
  | cons c cs ih =>
    simp only [jsSplitChar]
    by_cases h : c = sep
    · simp [h]
    · simp only [if_neg h]
      cases hr : jsSplitChar sep cs with
      | nil => simp
      | cons l ls => simp

theorem jsSplitChar_sep_cons (sep : Char) (t : List Char) :
    jsSplitChar sep (sep :: t) = [] :: jsSplitChar sep t := by
  simp [jsSplitChar]

theorem jsSplitChar_no_sep (sep : Char) (l : List Char) (h : sep ∉ l) :
    jsSplitChar sep l = [l] := by
  induction l with
  | nil => rfl
  | cons c cs ih =>
    have hc : c ≠ sep := fun hc => h (hc ▸ List.mem_cons_self c cs)
    have hcs : sep ∉ cs := fun hm => h (List.mem_cons_of_mem c hm)
    simp only [jsSplitChar, if_neg hc, ih hcs]

theorem jsSplitChar_append_sep (sep : Char) (l t : List Char) (h : sep ∉ l) :
    jsSplitChar sep (l ++ sep :: t) = l :: jsSplitChar sep t := by
  induction l with
  | nil => simpa using jsSplitChar_sep_cons sep t
  | cons c cs ih =>
    have hc : c ≠ sep := fun hc => h (hc ▸ List.mem_cons_self c cs)
    have hcs : sep ∉ cs := fun hm => h (List.mem_cons_of_mem c hm)
    simp only [List.cons_append, jsSplitChar, List.append_eq, ih hcs, if_neg hc]

/-- Splitting undoes joining, provided the fragments are nonempty as a list and
none of them contains the separator. -/
theorem jsSplitChar_jsJoinChar (sep : Char) (L : List (List Char)) (hne : L ≠ [])
    (h : ∀ l ∈ L, sep ∉ l) : jsSplitChar sep (jsJoinChar sep L) = L := by
  induction L with
  | nil => exact absurd rfl hne
  | cons l ls ih =>
    cases ls with
    | nil =>
      simpa [jsJoinChar] using jsSplitChar_no_sep sep l (h l (List.mem_cons_self l []))
    | cons l' ls' =>
      have h1 : sep ∉ l := h l (List.mem_cons_self l _)
      have h2 : ∀ x ∈ l' :: ls', sep ∉ x := fun x hx => h x (List.mem_cons_of_mem l hx)
      have := ih (by simp) h2
      simp only [jsJoinChar, jsSplitChar_append_sep sep l _ h1, this]

/-- Every fragment produced by `jsSplitChar` is free of the separator. -/
theorem jsSplitChar_mem_no_sep (sep : Char) (s : List Char) :
    ∀ l ∈ jsSplitChar sep s, sep ∉ l := by
  induction s with
  | nil => intro l hl; simp [jsSplitChar] at hl; simp [hl]
  | cons c cs ih =>
    intro l hl
    simp only [jsSplitChar] at hl
    by_cases h : c = sep
    · rw [if_pos h] at hl
      rcases List.mem_cons.mp hl with h1 | h1
      · simp [h1]
      · exact ih l h1
    · rw [if_neg h] at hl
      cases hr : jsSplitChar sep cs with
      | nil => exact absurd hr (jsSplitChar_ne_nil sep cs)
      | cons m ms =>
        rw [hr] at hl
        rcases List.mem_cons.mp hl with h1 | h1
        · subst h1
          intro hmem
          rcases List.mem_cons.mp hmem with h2 | h2
          · exact h h2.symm
          · exact ih m (hr ▸ List.mem_cons_self m ms) h2
        · exact ih l (hr ▸ List.mem_cons_of_mem m h1)

/-- A list containing a non-whitespace character does not trim to empty. -/
theorem jsTrim_ne_nil_of_mem (l : List Char) (c : Char) (hc : c ∈ l)
    (hw : jsIsWs c = false) : jsTrim l ≠ [] := by
  intro h
  unfold jsTrim at h
  have h1 : (((l.dropWhile jsIsWs).reverse).dropWhile jsIsWs) = [] := by
    have := congrArg List.reverse h
    simpa using this
  have hmem1 : c ∈ l.dropWhile jsIsWs := by
    have hsplit := List.takeWhile_append_dropWhile (p := jsIsWs) (l := l)
    rcases (List.mem_append.mp (hsplit ▸ hc)) with h2 | h2
    · exact absurd (List.mem_takeWhile_imp h2) (by simp [hw])
    · exact h2
  have hmem2 : c ∈ ((l.dropWhile jsIsWs).reverse).dropWhile jsIsWs := by
    have hrev : c ∈ (l.dropWhile jsIsWs).reverse := by simpa using hmem1
    have hsplit := List.takeWhile_append_dropWhile (p := jsIsWs)
      (l := (l.dropWhile jsIsWs).reverse)
    rcases (List.mem_append.mp (hsplit ▸ hrev)) with h2 | h2
    · exact absurd (List.mem_takeWhile_imp h2) (by simp [hw])
    · exact h2
  rw [h1] at hmem2
  exact absurd hmem2 (List.not_mem_nil c)

/-! ### Data model: job status responses

Shape of the object returned by `ApiClient.getExportJobStatus`, as consumed by
`JobManager.waitForExportCompletion` and `ExportStrategy.downloadResults`:
`{status, objects: [{name, status, totalSize, fileUrls[], errors[]}], error?}`.
Fields the JavaScript code guards for being `undefined` are `Option`s. -/

structure JobObject where
  name : JSStr
  status : JSStr
  totalSize : Int
  fileUrls : Option (List JSStr)
  errors : Option (List JSStr)
deriving DecidableEq, Repr

structure JobStatus where
  status : JSStr
  objects : Option (List JobObject)
  error : Option JSStr
deriving DecidableEq, Repr

/-- The object list of a status; `status.objects?.filter(...) || []` makes an
undefined `objects` behave as the empty list. -/
def objList (st : JobStatus) : List JobObject := st.objects.getD []

/-- Model of `error.includes('No ') && error.includes(' fetched')` from
`jobManager.js`. -/
def errNoFetched (e : JSStr) : Bool :=
  jsIncludes (str "No ") e && jsIncludes (str " fetched") e

/-- Model of `obj.errors && obj.errors.some(error => ...)`: an undefined
`errors` field is falsy, an empty array is truthy but has no matching member. -/
def errsNoFetched (errors : Option (List JSStr)) : Bool :=
  match errors with
  | some es => es.any errNoFetched
  | none => false

/-- `obj.status === 'Completed'` (exact, case-sensitive comparison). -/
def isCompletedObj (o : JobObject) : Bool := o.status == str "Completed"

/-- The no-records pattern from `jobManager.js`: status `'Failed'`, record
count zero, and some error string containing `'No '` and `' fetched'`. -/
def isNoRecordsObj (o : JobObject) : Bool :=
  o.status == str "Failed" && o.totalSize == 0 && errsNoFetched o.errors

/-- A genuine per-object failure: status `'Failed'` and not matching the
no-records pattern. -/
def isActualFailedObj (o : JobObject) : Bool :=
  o.status == str "Failed" && !(o.totalSize == 0 && errsNoFetched o.errors)

/-- Outcome of the `statusLower === 'failed'` branch of
`JobManager.waitForExportCompletion`. -/
inductive FailedResolution
  | success (st : JobStatus)
  | thrown (msg : JSStr)
deriving DecidableEq, Repr

/-- The `'failed'` branch of `JobManager.waitForExportCompletion`
(jobManager.js lines 36-57): return the status as a partial success when some
object is completed or matches the no-records pattern, otherwise hand off to
`ErrorHandler.handleJobFailure`, which throws `new Error('Job failed')`. -/
def resolveExportFailed (st : JobStatus) : FailedResolution :=
  let completedObjects := (objList st).filter isCompletedObj
  let noRecordsObjects := (objList st).filter isNoRecordsObj
  if 0 < completedObjects.length ∨ 0 < noRecordsObjects.length then
    .success st
  else
    .thrown (str "Job failed")

/-- What one status inspection in the export poller decides to do. -/
inductive ExportPollAction
  | success
  | failedBranch
  | keepPolling
deriving DecidableEq, Repr

/-- Terminal-state detection of `JobManager.waitForExportCompletion`: the
status string is lowercased and compared against the recognized synonyms. -/
def classifyExportStatus (s : JSStr) : ExportPollAction :=
  let statusLower := jsToLowerL s
  if statusLower == str "completed" || statusLower == str "succeeded" then .success
  else if statusLower == str "failed" then .failedBranch
  else .keepPolling

/-- What one status inspection in the import poller decides to do. -/
inductive ImportPollAction
  | success
  | failedBranch
  | pCompleted
  | keepPolling
deriving DecidableEq, Repr

/-- Terminal-state detection of `JobManager.waitForImportCompletion`, which
additionally recognizes `'partialcompleted'`. -/
def classifyImportStatus (s : JSStr) : ImportPollAction :=
  let statusLower := jsToLowerL s
  if statusLower == str "completed" || statusLower == str "succeeded" then .success
  else if statusLower == str "failed" then .failedBranch
  else if statusLower == str "partialcompleted" then .pCompleted
  else .keepPolling

/-- What one iteration of the polling loop does. -/
inductive LoopStep
  | timedOut (msg : JSStr)
  | success (st : JobStatus)
  | thrown (msg : JSStr)
  | exited (code : Nat)
  | continuePoll (delayMs : Nat)
deriving DecidableEq, Repr

/-- Is the step a timeout error? -/
def LoopStep.isTimedOut : LoopStep → Bool
  | .timedOut _ => true
  | _ => false

/-- The timeout message thrown by the export poller:
`` `Export job timed out after ${options.timeout} seconds` ``. -/
def timeoutMsg (timeoutSec : Nat) : JSStr :=
  str "Export job timed out after " ++ str (toString timeoutSec) ++ str " seconds"

/-- Processing of one successfully fetched status by the export poller. -/
def exportHandleStatus (st : JobStatus) : LoopStep :=
  match classifyExportStatus st.status with
  | .success => .success st
  | .failedBranch =>
    match resolveExportFailed st with
    | .success s => .success s
    | .thrown m => .thrown m
  | .keepPolling => .continuePoll 5000

/-- How the underlying HTTP status request can end. -/
inductive FetchOutcome
  | ok (st : JobStatus)
  | httpErr (code : Nat) (msg : JSStr)
  | netErr (msg : JSStr)
deriving DecidableEq, Repr

/-- One iteration of `JobManager.waitForExportCompletion` as written: the
elapsed-time check first, then the fetch; a thrown error carrying a 404
response waits 2 seconds and retries, any other thrown error is rethrown.
This models the loop body against a status client that surfaces HTTP
failures as thrown errors (the shape the `catch` block is written for). -/
def exportLoopStepRaw (timeoutSec elapsedMs : Nat) (f : FetchOutcome) : LoopStep :=
  if timeoutSec * 1000 < elapsedMs then .timedOut (timeoutMsg timeoutSec)
  else
    match f with
    | .ok st => exportHandleStatus st
    | .httpErr code m => if code = 404 then .continuePoll 2000 else .thrown m
    | .netErr m => .thrown m

/-- How a call through `ApiClient.get` ends, seen from the caller. -/
inductive ApiGetOutcome
  | data (st : JobStatus)
  | exitedProcess (code : Nat)
deriving DecidableEq, Repr

/-- Model of `ApiClient.get` (apiClient.js lines 21-37): on success it
returns the response data; on any axios error it calls
`ErrorHandler.handleApiError`, which prints and ends in `process.exit(1)`,
so no error — 404 included — ever propagates to the caller. -/
def apiClientGet (f : FetchOutcome) : ApiGetOutcome :=
  match f with
  | .ok st => .data st
  | .httpErr _ _ => .exitedProcess 1
  | .netErr _ => .exitedProcess 1

/-- One iteration of the export polling loop as actually composed with
`ApiClient.get`: an HTTP failure terminates the process inside the client,
so the poller's catch block never runs. -/
def exportLoopStepActual (timeoutSec elapsedMs : Nat) (f : FetchOutcome) : LoopStep :=
  if timeoutSec * 1000 < elapsedMs then .timedOut (timeoutMsg timeoutSec)
  else
    match apiClientGet f with
    | .data st => exportHandleStatus st
    | .exitedProcess c => .exited c

/-- Result of running the polling loop to the end (with explicit fuel). -/
inductive RunResult
  | timedOut (elapsedMs : Nat)
  | success (st : JobStatus)
  | thrown (msg : JSStr)
  | exited (code : Nat)
  | outOfFuel
deriving DecidableEq, Repr

/-- The export polling loop of `JobManager.waitForExportCompletion`, iterated:
`fetches i` is the outcome of the `i`-th status request and `durs i` the
wall-clock milliseconds it consumes; a continue step adds the fetch duration
plus the wait delay (5000 ms after a non-terminal status, 2000 ms after a
404) to the elapsed time before the next check. -/
def exportRunRaw (timeoutSec : Nat) (fetches : Nat → FetchOutcome) (durs : Nat → Nat) :
    Nat → Nat → Nat → RunResult
  | 0, _, _ => .outOfFuel
  | fuel + 1, i, elapsed =>
    match exportLoopStepRaw timeoutSec elapsed (fetches i) with
    | .timedOut _ => .timedOut elapsed
    | .success st => .success st
    | .thrown m => .thrown m
    | .exited c => .exited c
    | .continuePoll d => exportRunRaw timeoutSec fetches durs fuel (i + 1) (elapsed + durs i + d)

/-! ### FileUtils: wire-format staging (fileUtils.js)

`JSON.stringify`/`JSON.parse` are JavaScript builtins, external to this
repository; the staging functions are therefore parameterized by an abstract
record codec (`encode`/`decode`, resp. a metadata-line reader `parseMeta`),
while the line assembly the repository performs is modelled exactly. -/

/-- The metadata header line
`` `{"meta": {"objectname": "${x.toLowerCase()}"}}` `` from `fileUtils.js`. -/
def metaLine (x : JSStr) : JSStr :=
  str "\x7b\"meta\": \x7b\"objectname\": \"" ++ jsToLowerL x ++ str "\"\x7d\x7d"

/-- Model of `content.split('\n').filter(line => line.trim())`: the non-blank
lines of a file. -/
def nonBlankLines (content : JSStr) : List JSStr :=
  (jsSplitChar '\n' content).filter (fun l => !(jsTrim l).isEmpty)

/-- The JSONL content built by `FileUtils.convertToJSONL` (lines 123-141):
the metadata header line followed by one `JSON.stringify`d record per line,
joined with `'\n'`. `data` is the array parsed from the import file and
`encode` stands for `JSON.stringify`. -/
def convertToJSONLContent {α : Type} (encode : α → JSStr) (objectType : JSStr)
    (data : List α) : JSStr :=
  jsJoinChar '\n' (metaLine objectType :: data.map encode)

/-- The `'jsonl'` branch of `FileUtils.parseImportFile` (lines 50-53):
split on newlines, keep non-blank lines, `JSON.parse` each. `decode` stands
for `JSON.parse`. -/
def parseImportFileJsonl {α : Type} (decode : JSStr → α) (content : JSStr) : List α :=
  (nonBlankLines content).map decode

/-- The object name used by `FileUtils.convertExportedFileToImportFormat`:
`firstLine.meta_objectName || objectType.toLowerCase()` — an absent or empty
(falsy) field falls back to the lowercased object type. -/
def resolvedObjectName (nameOpt : Option JSStr) (objectType : JSStr) : JSStr :=
  match nameOpt with
  | some (c :: cs) => c :: cs
  | _ => jsToLowerL objectType

/-- Model of `FileUtils.convertExportedFileToImportFormat` (lines 149-183).
`parseMeta` stands for `JSON.parse` of the first line followed by reading its
`meta_objectName` property: `none` is a parse failure, `some none` a parsed
object without the property, `some (some s)` the property's string value.
The result is the content written to the converted file, or the thrown
error message. -/
def convertExportedFileToImportFormat (parseMeta : JSStr → Option (Option JSStr))
    (objectType : JSStr) (content : JSStr) : Except JSStr JSStr :=
  match nonBlankLines content with
  | [] => .error (str "File is empty")
  | l0 :: rest =>
    match parseMeta l0 with
    | none => .error (str "Invalid JSONL format in first line")
    | some nameOpt =>
      .ok (jsJoinChar '\n' (metaLine (resolvedObjectName nameOpt objectType) :: rest))

/-! ### Downloader: `ExportStrategy.downloadResults` (exportStrategies.js)

Node's `path` module is a runtime builtin external to the repository; the
model is parameterized by its three operations used here. Download requests
are modelled as succeeding, so an emitted `wrote` event is the write of
`FileUtils.writeOutput` (`none` as path means stdout). -/

/-- JavaScript truthiness of an optional string: `undefined` and `''` are
falsy. -/
def truthyStr : Option JSStr → Option JSStr
  | some (c :: cs) => some (c :: cs)
  | _ => none

structure PathOps where
  extname : JSStr → JSStr
  dirname : JSStr → JSStr
  join : JSStr → JSStr → JSStr

structure ExpOptions where
  objectType : Option JSStr
  output : Option JSStr
  jobId : Option JSStr

/-- `obj.fileUrls && obj.fileUrls.length > 0`. -/
def hasFiles (o : JobObject) : Bool :=
  match o.fileUrls with
  | some us => decide (0 < us.length)
  | none => false

/-- An object that is `'Completed'` and has at least one result file URL. -/
def isCompletedWithFiles (o : JobObject) : Bool := isCompletedObj o && hasFiles o

/-- `const requestedObjectType = this.options.objectType?.toLowerCase();` —
`some` exactly when the option is a truthy string. -/
def requestedType (opts : ExpOptions) : Option JSStr :=
  (truthyStr opts.objectType).map jsToLowerL

/-- Negation of the loop's skip:
`if (requestedObjectType && objName !== requestedObjectType) continue;`. -/
def passesRequested (opts : ExpOptions) (o : JobObject) : Bool :=
  match requestedType opts with
  | some req => jsToLowerL o.name == req
  | none => true

/-- `const jobId = this.options.jobId || 'unknown';`. -/
def dlJobId (opts : ExpOptions) : JSStr :=
  match truthyStr opts.jobId with
  | some j => j
  | none => str "unknown"

/-- The extension used for individual files:
`(this.options.output ? path.extname(this.options.output) : '.jsonl') || '.jsonl'`. -/
def dlExt (p : PathOps) (opts : ExpOptions) : JSStr :=
  let ext := match truthyStr opts.output with
    | some out => p.extname out
    | none => str ".jsonl"
  match ext with
  | [] => str ".jsonl"
  | c :: cs => c :: cs

/-- The per-object file path used when individual files are needed:
`` `${obj.name.toLowerCase()}-${jobId}${baseExtension}` ``, placed next to the
requested output path when one was given. -/
def indOutPath (p : PathOps) (opts : ExpOptions) (o : JobObject) : JSStr :=
  let base := jsToLowerL o.name ++ str "-" ++ dlJobId opts ++ dlExt p opts
  match truthyStr opts.output with
  | some out => p.join (p.dirname out) base
  | none => base

/-- Observable effect of one iteration of the download loop. -/
inductive DlEvent
  | wrote (path : Option JSStr) (objName : JSStr)
  | failedNoRecords (objName : JSStr)
  | failedError (objName : JSStr)
  | completedNoFile (objName : JSStr)
  | otherStatus (objName : JSStr) (status : JSStr)
deriving DecidableEq, Repr

/-- The object name an event reports on. -/
def DlEvent.objName : DlEvent → JSStr
  | .wrote _ n => n
  | .failedNoRecords n => n
  | .failedError n => n
  | .completedNoFile n => n
  | .otherStatus n _ => n

/-- One iteration of the `for (const obj of validObjects)` loop of
`ExportStrategy.downloadResults`: `none` when the object is skipped by the
requested-type filter. -/
def objEvent (p : PathOps) (opts : ExpOptions) (needsInd : Bool) (o : JobObject) :
    Option DlEvent :=
  if !(passesRequested opts o) then none
  else if isCompletedObj o && hasFiles o then
    some (.wrote (if needsInd then some (indOutPath p opts o) else truthyStr opts.output) o.name)
  else if o.status == str "Failed" then
    if o.totalSize == 0 && errsNoFetched o.errors then some (.failedNoRecords o.name)
    else some (.failedError o.name)
  else if isCompletedObj o then some (.completedNoFile o.name)
  else some (.otherStatus o.name o.status)

/-- `const validObjects = status.objects.filter(obj => obj.name !== 'Usage');`. -/
def validObjects (st : JobStatus) : List JobObject :=
  (objList st).filter (fun o => !(o.name == str "Usage"))

/-- `const needsIndividualFiles = completedObjects.length > 1;` where
`completedObjects` are the valid objects that are completed with files. -/
def needsIndividualFiles (st : JobStatus) : Bool :=
  decide (1 < ((validObjects st).filter isCompletedWithFiles).length)

/-- Model of `ExportStrategy.downloadResults` (lines 33-107): nothing happens
on an empty object list; otherwise filter out `'Usage'` objects, decide
whether individual file naming is needed, then process each valid object in
order. -/
def downloadResultsEvents (p : PathOps) (opts : ExpOptions) (st : JobStatus) :
    List DlEvent :=
  if (objList st).isEmpty then []
  else (validObjects st).filterMap (objEvent p opts (needsIndividualFiles st))

/-- The file path a write event carries (stdout writes carry none; other
events write nothing). -/
def wrotePathOf (e : DlEvent) : Option JSStr :=
  match e with
  | .wrote (some pa) _ => some pa
  | _ => none

/-- The file paths written by a list of download events. -/
def writtenPaths (evs : List DlEvent) : List JSStr :=
  evs.filterMap wrotePathOf

/-! ### MultiObjectBatcher: `FileUtils.createMultiFileFormData` and the
object-type → upload-field-name mapping of
`ImportMetadataCommand.getFormFieldName` (import.js lines 228-243). -/

/-- The fixed mapping table `fieldMap` from import.js. -/
def importFieldMap : List (JSStr × JSStr) :=
  [ (str "uom", str "uom"),
    (str "credittype", str "creditType"),
    (str "creditpool", str "creditPool"),
    (str "creditconversion", str "creditConversion"),
    (str "pricebook", str "priceBook"),
    (str "pricetag", str "priceTag"),
    (str "productgroup", str "productGroup"),
    (str "product", str "product"),
    (str "bundle", str "bundle"),
    (str "bundlesuite", str "bundleSuite"),
    (str "customsetting", str "customSetting") ]

/-- JavaScript property lookup `fieldMap[key]`. -/
def lookupField (k : JSStr) : List (JSStr × JSStr) → Option JSStr
  | [] => none
  | (k', v) :: rest => if k == k' then some v else lookupField k rest

/-- Model of `ImportMetadataCommand.getFormFieldName`:
`fieldMap[objectType?.toLowerCase()] || objectType?.toLowerCase()` — the
mapped field name when the lowercased type is in the table, otherwise the
lowercased type itself (all mapped values are truthy). -/
def getFormFieldNameImport (objectType : JSStr) : JSStr :=
  match lookupField (jsToLowerL objectType) importFieldMap with
  | some v => v
  | none => jsToLowerL objectType

/-- Observable effect of one file in `FileUtils.createMultiFileFormData`. -/
inductive BatchEvent
  | appended (fieldName fileName : JSStr)
  | skipped (fileName objType : JSStr)
deriving DecidableEq, Repr

/-- The body of the `files.forEach` callback in
`FileUtils.createMultiFileFormData`: take the file's basename, split it on
`'-'` and use the first fragment as the object type, resolve the form field
name, and append the file when the field name is truthy, otherwise warn and
skip. `basename` stands for Node's `path.basename`. -/
def batchFileEvent (basename : JSStr → JSStr) (getFieldName : JSStr → JSStr)
    (filePath : JSStr) : BatchEvent :=
  let fileName := basename filePath
  let objType := (jsSplitChar '-' fileName).headD []
  let fieldName := getFieldName objType
  if fieldName.isEmpty then .skipped fileName objType
  else .appended fieldName fileName

/-- Model of `FileUtils.createMultiFileFormData` (lines 203-220): every file
is processed in order and produces exactly one event. -/
def createMultiFileFormDataEvents (basename : JSStr → JSStr)
    (getFieldName : JSStr → JSStr) (files : List JSStr) : List BatchEvent :=
  files.map (batchFileEvent basename getFieldName)

/-! ### Supporting lemmas about the classifiers -/

theorem classifyExportStatus_eq_of_lower {s t : JSStr}
    (h : jsToLowerL s = jsToLowerL t) :
    classifyExportStatus s = classifyExportStatus t := by
  simp only [classifyExportStatus, h]

theorem classifyImportStatus_eq_of_lower {s t : JSStr}
    (h : jsToLowerL s = jsToLowerL t) :
    classifyImportStatus s = classifyImportStatus t := by
  simp only [classifyImportStatus, h]

theorem classifyExportStatus_failed {s : JSStr} (h : jsToLowerL s = str "failed") :
    classifyExportStatus s = .failedBranch := by
  simp only [classifyExportStatus, h]; decide

/-- Claim C6: terminal-state detection is case-insensitive in both pollers —
the classification depends only on the lowercased status string, and every
recognized synonym in any casing goes to its terminal outcome. -/
theorem c6_status_case_insensitive :
    (∀ s t : JSStr, jsToLowerL s = jsToLowerL t →
        classifyExportStatus s = classifyExportStatus t ∧
        classifyImportStatus s = classifyImportStatus t) ∧
    (∀ s : JSStr, jsToLowerL s = str "completed" →
        classifyExportStatus s = .success ∧ classifyImportStatus s = .success) ∧
    (∀ s : JSStr, jsToLowerL s = str "succeeded" →
        classifyExportStatus s = .success ∧ classifyImportStatus s = .success) ∧
    (∀ s : JSStr, jsToLowerL s = str "failed" →
        classifyExportStatus s = .failedBranch ∧ classifyImportStatus s = .failedBranch) ∧
    (∀ s : JSStr, jsToLowerL s = str "partialcompleted" →
        classifyImportStatus s = .pCompleted) := by
  refine ⟨fun s t h => ⟨classifyExportStatus_eq_of_lower h, classifyImportStatus_eq_of_lower h⟩,
    fun s h => ⟨?_, ?_⟩, fun s h => ⟨?_, ?_⟩, fun s h => ⟨?_, ?_⟩, fun s h => ?_⟩ <;>
    simp only [classifyExportStatus, classifyImportStatus, h] <;> decide

/-- Closed instance of C6: mixed-case synonyms are classified like their
lowercase forms. -/
theorem c6_status_case_insensitive_witness :
    classifyExportStatus (str "FaIlEd") = classifyExportStatus (str "failed") ∧
    classifyImportStatus (str "PartialCompleted") = .pCompleted :=
  ⟨(c6_status_case_insensitive.1 (str "FaIlEd") (str "failed") (by decide)).1,
   c6_status_case_insensitive.2.2.2.2 (str "PartialCompleted") (by decide)⟩

/-! ### Supporting lemmas about per-object classification -/

theorem filter_pos_iff {α : Type} (l : List α) (p : α → Bool) :
    0 < (l.filter p).length ↔ ∃ o ∈ l, p o = true := by
  rw [List.length_pos, Ne, List.filter_eq_nil_iff]
  push_neg
  simp

theorem isCompletedObj_iff (o : JobObject) :
    isCompletedObj o = true ↔ o.status = str "Completed" := by
  simp [isCompletedObj]

theorem isNoRecordsObj_iff (o : JobObject) :
    isNoRecordsObj o = true ↔
      o.status = str "Failed" ∧ o.totalSize = 0 ∧ errsNoFetched o.errors = true := by
  simp [isNoRecordsObj, and_assoc]

theorem isActualFailedObj_iff (o : JobObject) :
    isActualFailedObj o = true ↔
      o.status = str "Failed" ∧ (o.totalSize = 0 → errsNoFetched o.errors = false) := by
  simp only [isActualFailedObj, Bool.and_eq_true, beq_iff_eq, Bool.not_eq_true']
  constructor
  · rintro ⟨h1, h2⟩
    refine ⟨h1, fun hz => ?_⟩
    cases he : errsNoFetched o.errors
    · rfl
    · rw [Bool.and_eq_false_iff] at h2
      rcases h2 with h2 | h2
      · simp [hz] at h2
      · rw [he] at h2; exact absurd h2 (by decide)
  · rintro ⟨h1, h2⟩
    refine ⟨h1, ?_⟩
    rw [Bool.and_eq_false_iff]
    by_cases hz : o.totalSize = 0
    · right; exact h2 hz
    · left; simpa using hz

/-- On the `'failed'` branch the poller's outcome is exactly the
completed-or-no-records test over the object list. -/
theorem exportHandleStatus_failed (st : JobStatus)
    (hf : jsToLowerL st.status = str "failed") :
    exportHandleStatus st =
      (if 0 < ((objList st).filter isCompletedObj).length ∨
          0 < ((objList st).filter isNoRecordsObj).length
       then LoopStep.success st else .thrown (str "Job failed")) := by
  unfold exportHandleStatus
  rw [classifyExportStatus_failed hf]
  simp only [resolveExportFailed]
  by_cases hcond : 0 < ((objList st).filter isCompletedObj).length ∨
      0 < ((objList st).filter isNoRecordsObj).length
  · simp [hcond]
  · simp [hcond]

/-- Claim C1: on a terminal `'failed'` top-level status (case-insensitive)
whose objects are in terminal per-object states, the poller resolves the job
as success exactly when at least one object is `Completed` or matches the
no-records pattern, and throws exactly when every object is a genuine
failure. -/
theorem c1_failed_resolution (st : JobStatus)
    (hf : jsToLowerL st.status = str "failed")
    (hterm : ∀ o ∈ objList st, o.status = str "Completed" ∨ o.status = str "Failed") :
    (exportHandleStatus st = .success st ↔
      ∃ o ∈ objList st, (isCompletedObj o || isNoRecordsObj o) = true) ∧
    (exportHandleStatus st = .thrown (str "Job failed") ↔
      ∀ o ∈ objList st, isActualFailedObj o = true) := by
  rw [exportHandleStatus_failed st hf]
  by_cases hcond : 0 < ((objList st).filter isCompletedObj).length ∨
      0 < ((objList st).filter isNoRecordsObj).length
  · rw [if_pos hcond]
    have hex : ∃ o ∈ objList st, (isCompletedObj o || isNoRecordsObj o) = true := by
      rcases hcond with h | h
      · obtain ⟨o, ho, hp⟩ := (filter_pos_iff _ _).mp h
        exact ⟨o, ho, by simp [hp]⟩
      · obtain ⟨o, ho, hp⟩ := (filter_pos_iff _ _).mp h
        exact ⟨o, ho, by simp [hp]⟩
    have hna : ¬ ∀ o ∈ objList st, isActualFailedObj o = true := by
      intro hall
      obtain ⟨o, ho, hp⟩ := hex
      have hfail := (isActualFailedObj_iff o).mp (hall o ho)
      rcases (show isCompletedObj o = true ∨ isNoRecordsObj o = true by
        simpa using hp) with hcomp | hnr
      · have h1 := (isCompletedObj_iff o).mp hcomp
        rw [h1] at hfail
        exact absurd hfail.1 (by decide)
      · have h2 := (isNoRecordsObj_iff o).mp hnr
        have h3 := hfail.2 h2.2.1
        rw [h2.2.2] at h3
        exact absurd h3 (by decide)
    exact ⟨iff_of_true rfl hex, iff_of_false (by simp) hna⟩
  · rw [if_neg hcond]
    push_neg at hcond
    have hnoc : ∀ o ∈ objList st, isCompletedObj o = false := by
      intro o ho
      cases h : isCompletedObj o
      · rfl
      · exact absurd ((filter_pos_iff _ _).mpr ⟨o, ho, h⟩) (Nat.not_lt.mpr hcond.1)
    have hnon : ∀ o ∈ objList st, isNoRecordsObj o = false := by
      intro o ho
      cases h : isNoRecordsObj o
      · rfl
      · exact absurd ((filter_pos_iff _ _).mpr ⟨o, ho, h⟩) (Nat.not_lt.mpr hcond.2)
    have hall : ∀ o ∈ objList st, isActualFailedObj o = true := by
      intro o ho
      rcases hterm o ho with h1 | h1
      · have h2 : isCompletedObj o = true := (isCompletedObj_iff o).mpr h1
        rw [hnoc o ho] at h2
        exact absurd h2 (by decide)
      · refine (isActualFailedObj_iff o).mpr ⟨h1, fun hz => ?_⟩
        cases he : errsNoFetched o.errors
        · rfl
        · have h2 : isNoRecordsObj o = true := (isNoRecordsObj_iff o).mpr ⟨h1, hz, he⟩
          rw [hnon o ho] at h2
          exact absurd h2 (by decide)
    have hnex : ¬ ∃ o ∈ objList st, (isCompletedObj o || isNoRecordsObj o) = true := by
      rintro ⟨o, ho, hp⟩
      rcases (show isCompletedObj o = true ∨ isNoRecordsObj o = true by
        simpa using hp) with hcomp | hnr
      · rw [hnoc o ho] at hcomp; exact absurd hcomp (by decide)
      · rw [hnon o ho] at hnr; exact absurd hnr (by decide)
    exact ⟨iff_of_false (by simp) hnex, iff_of_true rfl hall⟩

/-- Closed instance of C1: a failed job with one no-records object and one
genuinely failed object resolves as success. -/
theorem c1_failed_resolution_witness :
    exportHandleStatus
      { status := str "Failed"
      , objects := some
          [ { name := str "Product", status := str "Failed", totalSize := 0,
              fileUrls := none, errors := some [str "No Product records fetched"] },
            { name := str "Uom", status := str "Failed", totalSize := 2,
              fileUrls := none, errors := some [str "boom"] } ]
      , error := none } =
      .success
        { status := str "Failed"
        , objects := some
            [ { name := str "Product", status := str "Failed", totalSize := 0,
                fileUrls := none, errors := some [str "No Product records fetched"] },
              { name := str "Uom", status := str "Failed", totalSize := 2,
                fileUrls := none, errors := some [str "boom"] } ]
        , error := none } := by
  have h := c1_failed_resolution
    { status := str "Failed"
    , objects := some
        [ { name := str "Product", status := str "Failed", totalSize := 0,
            fileUrls := none, errors := some [str "No Product records fetched"] },
          { name := str "Uom", status := str "Failed", totalSize := 2,
            fileUrls := none, errors := some [str "boom"] } ]
    , error := none } (by decide) (by decide)
  exact h.1.mpr (by decide)

/-- The concrete every-object-genuinely-failed status used for claim C4. -/
def c4Status : JobStatus :=
  { status := str "Failed"
  , objects := some
      [ { name := str "Product", status := str "Failed", totalSize := 3,
          fileUrls := none, errors := some [str "boom"] } ]
  , error := none }

/-- Claim C4 as stated is false: on a terminal `'failed'` status whose only
object is a genuine failure, the poller for job id `exp-42` throws
`'Job failed'`, a message that does not include the job id. -/
theorem c4_counterexample :
    exportHandleStatus c4Status = .thrown (str "Job failed") ∧
    jsIncludes (str "exp-42") (str "Job failed") = false := by decide

/-- Claim C4, amended: on a terminal `'failed'` status where every object is
a genuine failure, the poller throws — but the thrown message is the fixed
string `'Job failed'` (from `ErrorHandler.handleJobFailure`), which does not
mention the job id. -/
theorem c4_amended_throw (st : JobStatus)
    (hf : jsToLowerL st.status = str "failed")
    (hall : ∀ o ∈ objList st, isActualFailedObj o = true) :
    exportHandleStatus st = .thrown (str "Job failed") := by
  rw [exportHandleStatus_failed st hf]
  rw [if_neg]
  rintro (h | h)
  · obtain ⟨o, ho, hp⟩ := (filter_pos_iff _ _).mp h
    have h1 := (isCompletedObj_iff o).mp hp
    have h2 := ((isActualFailedObj_iff o).mp (hall o ho)).1
    rw [h1] at h2
    exact absurd h2 (by decide)
  · obtain ⟨o, ho, hp⟩ := (filter_pos_iff _ _).mp h
    have h1 := (isNoRecordsObj_iff o).mp hp
    have h3 := ((isActualFailedObj_iff o).mp (hall o ho)).2 h1.2.1
    rw [h1.2.2] at h3
    exact absurd h3 (by decide)

/-- Closed instance of the amended C4. -/
theorem c4_amended_throw_witness :
    exportHandleStatus c4Status = .thrown (str "Job failed") :=
  c4_amended_throw c4Status (by decide) (by decide)

/-! ### Supporting lemmas about the polling loop -/

/-- A handled status never produces a timeout step. -/
theorem exportHandleStatus_not_timedOut (st : JobStatus) :
    (exportHandleStatus st).isTimedOut = false := by
  unfold exportHandleStatus
  cases classifyExportStatus st.status
  · rfl
  · cases resolveExportFailed st <;> rfl
  · rfl

/-- The step times out precisely when elapsed time strictly exceeds the
configured ceiling; the timeout check happens before the fetch, so when it
fires the outcome is independent of the fetch result. -/
theorem exportLoopStepRaw_timedOut_iff (T e : Nat) (f : FetchOutcome) :
    (exportLoopStepRaw T e f).isTimedOut = true ↔ T * 1000 < e := by
  unfold exportLoopStepRaw
  by_cases h : T * 1000 < e
  · simp [h, LoopStep.isTimedOut]
  · rw [if_neg h]
    simp only [h, iff_false]
    intro hc
    cases f with
    | ok st => rw [exportHandleStatus_not_timedOut st] at hc; exact absurd hc (by decide)
    | httpErr code m =>
      by_cases h4 : code = 404 <;> simp [h4, LoopStep.isTimedOut] at hc
    | netErr m => exact absurd hc (by simp [LoopStep.isTimedOut])

/-- Past the ceiling, the iteration raises the timeout without using the
fetch at all. -/
theorem exportLoopStepRaw_past_timeout (T e : Nat) (f : FetchOutcome)
    (h : T * 1000 < e) : exportLoopStepRaw T e f = .timedOut (timeoutMsg T) := by
  unfold exportLoopStepRaw
  rw [if_pos h]

/-- A handled status that keeps polling always waits the fixed 5000 ms
interval. -/
theorem exportHandleStatus_continue (st : JobStatus) (d : Nat)
    (h : exportHandleStatus st = .continuePoll d) : d = 5000 := by
  unfold exportHandleStatus at h
  cases hcl : classifyExportStatus st.status <;> rw [hcl] at h
  · exact absurd h (by simp)
  · cases hre : resolveExportFailed st <;> rw [hre] at h <;> exact absurd h (by simp)
  · cases h; rfl

/-- A continue step always waits 2000 ms (after a 404) or 5000 ms (after a
non-terminal status). -/
theorem exportLoopStepRaw_continue_delay (T e : Nat) (f : FetchOutcome) (d : Nat)
    (h : exportLoopStepRaw T e f = .continuePoll d) : d = 2000 ∨ d = 5000 := by
  unfold exportLoopStepRaw at h
  by_cases ht : T * 1000 < e
  · rw [if_pos ht] at h; exact absurd h (by simp)
  · rw [if_neg ht] at h
    cases f with
    | ok st =>
      have h' : exportHandleStatus st = .continuePoll d := h
      exact Or.inr (exportHandleStatus_continue st d h')
    | httpErr code m =>
      have h' : (if code = 404 then LoopStep.continuePoll 2000 else LoopStep.thrown m) =
          .continuePoll d := h
      by_cases h4 : code = 404
      · rw [if_pos h4] at h'; cases h'; exact Or.inl rfl
      · rw [if_neg h4] at h'; exact absurd h' (by simp)
    | netErr m =>
      have h' : LoopStep.thrown m = .continuePoll d := h
      exact absurd h' (by simp)

/-- A timed-out run raised the timeout only with elapsed time strictly past
the ceiling. -/
theorem exportRunRaw_timedOut_gt (T : Nat) (fetches : Nat → FetchOutcome)
    (durs : Nat → Nat) (fuel i e e' : Nat)
    (h : exportRunRaw T fetches durs fuel i e = .timedOut e') : T * 1000 < e' := by
  induction fuel generalizing i e with
  | zero => exact absurd h (by simp [exportRunRaw])
  | succ n ih =>
    unfold exportRunRaw at h
    cases hs : exportLoopStepRaw T e (fetches i) <;> rw [hs] at h
    case timedOut m =>
      cases h
      exact (exportLoopStepRaw_timedOut_iff T e' (fetches i)).mp (by rw [hs]; rfl)
    case success st => exact absurd h (by simp)
    case thrown m => exact absurd h (by simp)
    case exited c => exact absurd h (by simp)
    case continuePoll d => exact ih (i + 1) (e + durs i + d) h

/-- With enough fuel relative to the ceiling, the loop cannot run forever:
every iteration that continues advances elapsed time by at least 2000 ms and
the elapsed check precedes each fetch. -/
theorem exportRunRaw_no_fuelOut (T : Nat) (fetches : Nat → FetchOutcome)
    (durs : Nat → Nat) (fuel i e : Nat) (h : T * 1000 < e + fuel * 2000) :
    exportRunRaw T fetches durs (fuel + 1) i e ≠ .outOfFuel := by
  induction fuel generalizing i e with
  | zero =>
    have ht : T * 1000 < e := by simpa using h
    unfold exportRunRaw
    rw [exportLoopStepRaw_past_timeout T e (fetches i) ht]
    simp
  | succ n ih =>
    unfold exportRunRaw
    cases hs : exportLoopStepRaw T e (fetches i)
    case timedOut m => simp
    case success st => simp
    case thrown m => simp
    case exited c => simp
    case continuePoll d =>
      have hd := exportLoopStepRaw_continue_delay T e (fetches i) d hs
      apply ih
      rcases hd with hd | hd <;> subst hd <;> omega

/-- Claim C9, amended: the poller raises the timeout error if and only if
elapsed wall-clock time strictly exceeds the configured timeout (in
milliseconds); past the ceiling the iteration raises without fetching, also
right after a transient-404 wait, and the loop cannot poll unboundedly past
the ceiling since every continue step advances elapsed time by at least
2000 ms. -/
theorem c9_timeout_amended :
    (∀ T e f, T * 1000 < e → exportLoopStepRaw T e f = .timedOut (timeoutMsg T)) ∧
    (∀ T e f, (exportLoopStepRaw T e f).isTimedOut = true ↔ T * 1000 < e) ∧
    (∀ T fetches durs fuel i e e',
        exportRunRaw T fetches durs fuel i e = .timedOut e' → T * 1000 < e') ∧
    (∀ T fetches durs fuel i e, T * 1000 < e + fuel * 2000 →
        exportRunRaw T fetches durs (fuel + 1) i e ≠ .outOfFuel) :=
  ⟨fun T e f h => exportLoopStepRaw_past_timeout T e f h,
   fun T e f => exportLoopStepRaw_timedOut_iff T e f,
   fun T fetches durs fuel i e e' h => exportRunRaw_timedOut_gt T fetches durs fuel i e e' h,
   fun T fetches durs fuel i e h => exportRunRaw_no_fuelOut T fetches durs fuel i e h⟩

/-- A non-terminal status response used by the C9 theorems. -/
def procStatus : JobStatus := { status := str "Processing", objects := none, error := none }

/-- Closed instance of the amended C9. -/
theorem c9_timeout_amended_witness :
    exportLoopStepRaw 1 2000 (.ok procStatus) = .timedOut (timeoutMsg 1) ∧
    exportRunRaw 1 (fun _ => .ok procStatus) (fun _ => 0) 3 0 0 ≠ .outOfFuel :=
  ⟨c9_timeout_amended.1 1 2000 (.ok procStatus) (by decide),
   c9_timeout_amended.2.2.2 1 (fun _ => .ok procStatus) (fun _ => 0) 2 0 0 (by decide)⟩

/-- Claim C9 as stated is false at the boundary: with a 1-second timeout and
exactly 1000 ms elapsed (elapsed time has reached the timeout), the loop does
not raise the timeout error — the check `Date.now() - startTime > timeoutMs`
is strict — and instead fetches and keeps polling. -/
theorem c9_timeout_counterexample :
    (exportLoopStepRaw 1 1000 (.ok procStatus)).isTimedOut = false ∧
    exportLoopStepRaw 1 1000 (.ok procStatus) = .continuePoll 5000 := by decide

/-- Claim C7: the model of one poll iteration against `ApiClient.get`.
A status request failing with HTTP 404 does not lead to the 2-second
transient retry of `JobManager.waitForExportCompletion`'s catch block:
`ApiClient.get` catches the axios error itself and calls
`ErrorHandler.handleApiError`, which ends the process with exit code 1, so
within the overall timeout the combined iteration exits the process. The
second conjunct shows the retry the poller's own catch block implements for
a thrown 404, which this composition makes unreachable. -/
theorem c7_transient_404_code_bug (T e : Nat) (m : JSStr) (h : ¬ T * 1000 < e) :
    exportLoopStepActual T e (.httpErr 404 m) = .exited 1 ∧
    exportLoopStepRaw T e (.httpErr 404 m) = .continuePoll 2000 := by
  constructor
  · unfold exportLoopStepActual
    rw [if_neg h]
    rfl
  · unfold exportLoopStepRaw
    rw [if_neg h]
    rfl

/-- Closed instance of C7's divergence: first poll, 404 response — the
process exits instead of retrying. -/
theorem c7_transient_404_code_bug_witness :
    exportLoopStepActual 60 0 (.httpErr 404 (str "job not found")) = .exited 1 ∧
    exportLoopStepRaw 60 0 (.httpErr 404 (str "job not found")) = .continuePoll 2000 :=
  c7_transient_404_code_bug 60 0 (str "job not found") (by decide)

/-! ### Supporting lemmas about staging and lowercasing -/

theorem char_ofNat_toNat (n : Nat) (h : n < 55296) : (Char.ofNat n).toNat = n := by
  have hv : n.isValidChar := Or.inl h
  unfold Char.ofNat
  rw [dif_pos hv]
  rfl

/-- ASCII lowercasing maps nothing new onto the newline character. -/
theorem jsLowerChar_newline (c : Char) : jsLowerChar c = '\n' → c = '\n' := by
  unfold jsLowerChar
  split
  case isTrue hr =>
    intro h
    have h2 := congrArg Char.toNat h
    rw [char_ofNat_toNat (c.toNat + 32) (by omega)] at h2
    have h10 : Char.toNat '\n' = 10 := rfl
    omega
  case isFalse hr => exact id

theorem jsToLowerL_no_newline (s : JSStr) (h : '\n' ∉ s) : '\n' ∉ jsToLowerL s := by
  intro hm
  obtain ⟨c, hc, he⟩ := List.mem_map.mp hm
  exact h (by rwa [jsLowerChar_newline c he] at hc)

/-- The metadata header line is a single line: it contains no newline when
the object-type name contains none. -/
theorem metaLine_no_newline (x : JSStr) (h : '\n' ∉ x) : '\n' ∉ metaLine x := by
  unfold metaLine
  intro hm
  rcases List.mem_append.mp hm with hm1 | hm1
  · rcases List.mem_append.mp hm1 with hm2 | hm2
    · exact absurd hm2 (by decide)
    · exact absurd hm2 (jsToLowerL_no_newline x h)
  · exact absurd hm1 (by decide)

/-- Claim C2: staging a JSON array of `n` records to wire format produces
exactly `n + 1` newline-separated lines — the single-line metadata header
naming the lowercase object type, then one record per line — and JSONL
re-parsing of lines 2..n+1 reproduces the original records. `encode`/`decode`
stand for the JavaScript builtins `JSON.stringify`/`JSON.parse`, assumed to
emit single non-blank lines and to invert each other on the records. -/
theorem c2_staging_roundtrip {α : Type} (encode : α → JSStr) (decode : JSStr → α)
    (objectType : JSStr) (data : List α)
    (henc : ∀ r ∈ data, '\n' ∉ encode r)
    (htrim : ∀ r ∈ data, jsTrim (encode r) ≠ [])
    (hdec : ∀ r ∈ data, decode (encode r) = r)
    (hty : '\n' ∉ objectType) :
    (jsSplitChar '\n' (convertToJSONLContent encode objectType data)).length
        = data.length + 1 ∧
    (jsSplitChar '\n' (convertToJSONLContent encode objectType data)).headD []
        = metaLine objectType ∧
    parseImportFileJsonl decode
        (jsJoinChar '\n'
          ((jsSplitChar '\n' (convertToJSONLContent encode objectType data)).drop 1))
        = data := by
  have hsplit : jsSplitChar '\n' (convertToJSONLContent encode objectType data)
      = metaLine objectType :: data.map encode := by
    unfold convertToJSONLContent
    apply jsSplitChar_jsJoinChar
    · simp
    · intro l hl
      rcases List.mem_cons.mp hl with h | h
      · exact h ▸ metaLine_no_newline objectType hty
      · obtain ⟨r, hr, he⟩ := List.mem_map.mp h
        exact he ▸ henc r hr
  refine ⟨by rw [hsplit]; simp, by rw [hsplit]; rfl, ?_⟩
  rw [hsplit]
  simp only [List.drop_succ_cons, List.drop_zero]
  cases data with
  | nil => rfl
  | cons a as =>
    have hsplit2 : jsSplitChar '\n' (jsJoinChar '\n' ((a :: as).map encode))
        = (a :: as).map encode := by
      apply jsSplitChar_jsJoinChar
      · simp
      · intro l hl
        obtain ⟨r, hr, he⟩ := List.mem_map.mp hl
        exact he ▸ henc r hr
    unfold parseImportFileJsonl nonBlankLines
    rw [hsplit2]
    have hfil : ((a :: as).map encode).filter (fun l => !(jsTrim l).isEmpty)
        = (a :: as).map encode := by
      apply List.filter_eq_self.mpr
      intro l hl
      obtain ⟨r, hr, he⟩ := List.mem_map.mp hl
      subst he
      simpa [List.isEmpty_iff] using htrim r hr
    rw [hfil, List.map_map]
    have : (a :: as).map (decode ∘ encode) = (a :: as).map id :=
      List.map_congr_left (fun r hr => hdec r hr)
    rw [this, List.map_id]

/-- Closed instance of C2 with three records. -/
theorem c2_staging_roundtrip_witness :
    (jsSplitChar '\n' (convertToJSONLContent (fun r : JSStr => r) (str "Product")
        [str "one", str "two", str "three"])).length = 4 ∧
    parseImportFileJsonl (fun l : JSStr => l)
        (jsJoinChar '\n' ((jsSplitChar '\n' (convertToJSONLContent (fun r : JSStr => r)
          (str "Product") [str "one", str "two", str "three"])).drop 1))
      = [str "one", str "two", str "three"] := by
  have h := c2_staging_roundtrip (fun r : JSStr => r) (fun l : JSStr => l) (str "Product")
    [str "one", str "two", str "three"] (by decide) (by decide) (by decide) (by decide)
  exact ⟨h.1, h.2.2⟩

/-- Claim C5: re-staging an export-produced wire-format file rewrites only
its first non-blank line into the import metadata shape
`{"meta": {"objectname": "<lowercase name>"}}`; every line after the first is
carried over unchanged into the output file (first conjunct), and the output
file's line decomposition is exactly the new metadata line followed by those
byte-identical record lines (second conjunct). -/
theorem c5_restage_rewrites_only_meta (parseMeta : JSStr → Option (Option JSStr))
    (objectType content : JSStr) (l0 : JSStr) (rest : List JSStr)
    (nm : Option JSStr)
    (hL : nonBlankLines content = l0 :: rest)
    (hP : parseMeta l0 = some nm)
    (hn : '\n' ∉ resolvedObjectName nm objectType) :
    convertExportedFileToImportFormat parseMeta objectType content =
      .ok (jsJoinChar '\n' (metaLine (resolvedObjectName nm objectType) :: rest)) ∧
    jsSplitChar '\n' (jsJoinChar '\n' (metaLine (resolvedObjectName nm objectType) :: rest))
      = metaLine (resolvedObjectName nm objectType) :: rest := by
  constructor
  · simp only [convertExportedFileToImportFormat, hL, hP]
  · apply jsSplitChar_jsJoinChar
    · simp
    · intro l hl
      rcases List.mem_cons.mp hl with h | h
      · exact h ▸ metaLine_no_newline _ hn
      · have h0 : l ∈ nonBlankLines content := hL ▸ List.mem_cons_of_mem l0 h
        have h1 : l ∈ (jsSplitChar '\n' content).filter (fun x => !(jsTrim x).isEmpty) := h0
        exact jsSplitChar_mem_no_sep '\n' content l (List.mem_filter.mp h1).1

/-- Closed instance of C5: a three-line exported file is rewritten to carry
the import metadata line followed by the two untouched record lines. -/
theorem c5_restage_rewrites_only_meta_witness :
    convertExportedFileToImportFormat
        (fun l => if l == str "X" then some (some (str "Product")) else none)
        (str "product") (str "X\nrecA\nrecB") =
      .ok (jsJoinChar '\n' (metaLine (str "Product") :: [str "recA", str "recB"])) := by
  have h := c5_restage_rewrites_only_meta
    (fun l => if l == str "X" then some (some (str "Product")) else none)
    (str "product") (str "X\nrecA\nrecB") (str "X") [str "recA", str "recB"]
    (some (str "Product")) (by decide) (by decide) (by decide)
  exact h.1

/-! ### Supporting lemmas about the multi-file batcher -/

theorem lookupField_mem (k v : JSStr) :
    ∀ m : List (JSStr × JSStr), lookupField k m = some v → v ∈ m.map Prod.snd := by
  intro m
  induction m with
  | nil => intro h; exact absurd h (by simp [lookupField])
  | cons kv rest ih =>
    intro h
    obtain ⟨k', v'⟩ := kv
    unfold lookupField at h
    by_cases hk : k == k'
    · rw [if_pos hk] at h
      cases h
      exact List.mem_cons_self _ _
    · rw [if_neg hk] at h
      exact List.mem_cons_of_mem _ (ih h)

/-- The resolved form field name is empty (falsy) exactly for the empty
object-type prefix: every mapped value is truthy and the fallback is the
lowercased prefix itself. -/
theorem getFormFieldNameImport_empty_iff (ot : JSStr) :
    getFormFieldNameImport ot = [] ↔ ot = [] := by
  constructor
  · intro h
    unfold getFormFieldNameImport at h
    cases hl : lookupField (jsToLowerL ot) importFieldMap with
    | some v =>
      rw [hl] at h
      subst h
      have hv := lookupField_mem (jsToLowerL ot) [] importFieldMap hl
      exact absurd hv (by decide)
    | none =>
      rw [hl] at h
      have : ot.map jsLowerChar = [] := h
      simpa using this
  · intro h
    subst h
    decide

/-- Claim C8 as stated is false: a staged file whose object-type prefix
`foo` is not in the mapping table is not skipped — it is appended to the
batch with its lowercased prefix as the form field name. -/
theorem c8_batcher_counterexample :
    createMultiFileFormDataEvents (fun p => p) getFormFieldNameImport
        [str "foo-123.jsonl"] =
      [BatchEvent.appended (str "foo") (str "foo-123.jsonl")] := by decide

/-- Claim C8, amended: the batcher resolves each filename's object-type
prefix through the fixed mapping table and appends the file under the mapped
field name when the lowercased prefix is in the table, and under the
lowercased prefix itself otherwise; a file is skipped (with a warning) only
when the prefix is empty, and no file ever aborts the batch — every file
produces exactly one event. -/
theorem c8_batcher_amended (basename : JSStr → JSStr) (files : List JSStr)
    (f : JSStr) (hf : f ∈ files) :
    (createMultiFileFormDataEvents basename getFormFieldNameImport files).length
        = files.length ∧
    (∀ v, lookupField (jsToLowerL ((jsSplitChar '-' (basename f)).headD []))
          importFieldMap = some v →
        BatchEvent.appended v (basename f) ∈
          createMultiFileFormDataEvents basename getFormFieldNameImport files) ∧
    (lookupField (jsToLowerL ((jsSplitChar '-' (basename f)).headD []))
          importFieldMap = none →
        (jsSplitChar '-' (basename f)).headD [] ≠ [] →
        BatchEvent.appended (jsToLowerL ((jsSplitChar '-' (basename f)).headD []))
            (basename f) ∈
          createMultiFileFormDataEvents basename getFormFieldNameImport files) ∧
    ((jsSplitChar '-' (basename f)).headD [] = [] →
        BatchEvent.skipped (basename f) ((jsSplitChar '-' (basename f)).headD []) ∈
          createMultiFileFormDataEvents basename getFormFieldNameImport files) ∧
    (∀ fn ot, BatchEvent.skipped fn ot ∈
        createMultiFileFormDataEvents basename getFormFieldNameImport files →
        ot = []) := by
  refine ⟨by simp [createMultiFileFormDataEvents], ?_, ?_, ?_, ?_⟩
  · intro v hv
    have hne : getFormFieldNameImport ((jsSplitChar '-' (basename f)).headD []) = v := by
      unfold getFormFieldNameImport
      rw [hv]
    have hvne : v ≠ [] := by
      have hm := lookupField_mem _ v importFieldMap hv
      intro h
      subst h
      revert hm
      decide
    have hev : batchFileEvent basename getFormFieldNameImport f
        = BatchEvent.appended v (basename f) := by
      unfold batchFileEvent
      simp only [hne]
      rw [if_neg (by simpa [List.isEmpty_iff] using hvne)]
    exact hev ▸ List.mem_map_of_mem _ hf
  · intro hnone hne
    have hfe : getFormFieldNameImport ((jsSplitChar '-' (basename f)).headD [])
        = jsToLowerL ((jsSplitChar '-' (basename f)).headD []) := by
      unfold getFormFieldNameImport
      rw [hnone]
    have hvne : jsToLowerL ((jsSplitChar '-' (basename f)).headD []) ≠ [] := by
      intro h
      exact hne (by simpa [jsToLowerL] using h)
    have hev : batchFileEvent basename getFormFieldNameImport f
        = BatchEvent.appended (jsToLowerL ((jsSplitChar '-' (basename f)).headD []))
            (basename f) := by
      unfold batchFileEvent
      simp only [hfe]
      rw [if_neg (by simpa [List.isEmpty_iff] using hvne)]
    exact hev ▸ List.mem_map_of_mem _ hf
  · intro hempty
    have hfe : getFormFieldNameImport ((jsSplitChar '-' (basename f)).headD []) = [] :=
      (getFormFieldNameImport_empty_iff _).mpr hempty
    have hev : batchFileEvent basename getFormFieldNameImport f
        = BatchEvent.skipped (basename f) ((jsSplitChar '-' (basename f)).headD []) := by
      unfold batchFileEvent
      simp only [hfe]
      rfl
    exact hev ▸ List.mem_map_of_mem _ hf
  · intro fn ot hmem
    obtain ⟨g, _, hg⟩ := List.mem_map.mp hmem
    unfold batchFileEvent at hg
    by_cases hemp : (getFormFieldNameImport ((jsSplitChar '-' (basename g)).headD [])).isEmpty
    · rw [if_pos hemp] at hg
      cases hg
      exact (getFormFieldNameImport_empty_iff _).mp (by simpa [List.isEmpty_iff] using hemp)
    · rw [if_neg hemp] at hg
      exact absurd hg (by simp)

/-- Closed instance of the amended C8: a mapped prefix, an unmapped prefix
and an empty prefix in one batch. -/
theorem c8_batcher_amended_witness :
    BatchEvent.appended (str "priceBook") (str "pricebook-1.jsonl") ∈
      createMultiFileFormDataEvents (fun p => p) getFormFieldNameImport
        [str "pricebook-1.jsonl", str "foo-2.jsonl", str "-3.jsonl"] ∧
    BatchEvent.appended (str "foo") (str "foo-2.jsonl") ∈
      createMultiFileFormDataEvents (fun p => p) getFormFieldNameImport
        [str "pricebook-1.jsonl", str "foo-2.jsonl", str "-3.jsonl"] ∧
    BatchEvent.skipped (str "-3.jsonl") [] ∈
      createMultiFileFormDataEvents (fun p => p) getFormFieldNameImport
        [str "pricebook-1.jsonl", str "foo-2.jsonl", str "-3.jsonl"] := by
  refine ⟨?_, ?_, ?_⟩
  · exact (c8_batcher_amended (fun p => p)
      [str "pricebook-1.jsonl", str "foo-2.jsonl", str "-3.jsonl"]
      (str "pricebook-1.jsonl") (by decide)).2.1 (str "priceBook") (by decide)
  · exact (c8_batcher_amended (fun p => p)
      [str "pricebook-1.jsonl", str "foo-2.jsonl", str "-3.jsonl"]
      (str "foo-2.jsonl") (by decide)).2.2.1 (by decide) (by decide)
  · exact (c8_batcher_amended (fun p => p)
      [str "pricebook-1.jsonl", str "foo-2.jsonl", str "-3.jsonl"]
      (str "-3.jsonl") (by decide)).2.2.2.1 (by decide)

/-! ### Supporting lemmas about the download loop -/

/-- Every download-loop event reports on the name of the object that
produced it. -/
theorem objEvent_name (p : PathOps) (opts : ExpOptions) (ni : Bool) (o : JobObject)
    (e : DlEvent) (h : objEvent p opts ni o = some e) : e.objName = o.name := by
  unfold objEvent at h
  by_cases hpass : passesRequested opts o = true
  · rw [if_neg (by simp [hpass])] at h
    by_cases hcf : (isCompletedObj o && hasFiles o) = true
    · rw [if_pos hcf] at h
      cases h
      rfl
    · rw [if_neg hcf] at h
      by_cases hfl : (o.status == str "Failed") = true
      · rw [if_pos hfl] at h
        by_cases hnr : (o.totalSize == 0 && errsNoFetched o.errors) = true
        · rw [if_pos hnr] at h; cases h; rfl
        · rw [if_neg hnr] at h; cases h; rfl
      · rw [if_neg hfl] at h
        by_cases hco : isCompletedObj o = true
        · rw [if_pos hco] at h; cases h; rfl
        · rw [if_neg hco] at h; cases h; rfl
  · rw [if_pos (by simpa using hpass)] at h
    exact absurd h (by simp)

/-- When individual naming is in force, a passing completed-with-files
object is written to its individual path. -/
theorem objEvent_write (p : PathOps) (opts : ExpOptions) (o : JobObject)
    (hpass : passesRequested opts o = true) (hcf : isCompletedWithFiles o = true) :
    objEvent p opts true o = some (.wrote (some (indOutPath p opts o)) o.name) := by
  unfold objEvent
  rw [if_neg (by simp [hpass]),
    if_pos (show (isCompletedObj o && hasFiles o) = true from hcf)]
  rfl

/-- Only completed objects with files produce write events. -/
theorem objEvent_write_inv (p : PathOps) (opts : ExpOptions) (ni : Bool) (o : JobObject)
    (pa : Option JSStr) (n : JSStr) (h : objEvent p opts ni o = some (.wrote pa n)) :
    n = o.name ∧ isCompletedObj o = true ∧ hasFiles o = true := by
  unfold objEvent at h
  by_cases hpass : passesRequested opts o = true
  · rw [if_neg (by simp [hpass])] at h
    by_cases hcf : (isCompletedObj o && hasFiles o) = true
    · rw [if_pos hcf] at h
      cases h
      have := Bool.and_eq_true_iff.mp hcf
      exact ⟨rfl, this.1, this.2⟩
    · rw [if_neg hcf] at h
      by_cases hfl : (o.status == str "Failed") = true
      · rw [if_pos hfl] at h
        by_cases hnr : (o.totalSize == 0 && errsNoFetched o.errors) = true
        · rw [if_pos hnr] at h; exact absurd h (by simp)
        · rw [if_neg hnr] at h; exact absurd h (by simp)
      · rw [if_neg hfl] at h
        by_cases hco : isCompletedObj o = true
        · rw [if_pos hco] at h; exact absurd h (by simp)
        · rw [if_neg hco] at h; exact absurd h (by simp)
  · rw [if_pos (by simpa using hpass)] at h
    exact absurd h (by simp)

/-- With individual naming in force, composing the loop with path extraction
keeps exactly the passing completed-with-files objects and maps each to its
individual path. -/
theorem objEvent_bind_path (p : PathOps) (opts : ExpOptions) (o : JobObject) :
    (objEvent p opts true o).bind wrotePathOf =
      if passesRequested opts o && isCompletedWithFiles o then
        some (indOutPath p opts o)
      else none := by
  by_cases hpass : passesRequested opts o = true
  · by_cases hcf : isCompletedWithFiles o = true
    · rw [objEvent_write p opts o hpass hcf]
      simp [hpass, hcf, wrotePathOf]
    · rw [if_neg (by simp [hcf])]
      unfold objEvent
      rw [if_neg (by simp [hpass]), if_neg (by simpa [isCompletedWithFiles] using hcf)]
      by_cases hfl : (o.status == str "Failed") = true
      · rw [if_pos hfl]
        by_cases hnr : (o.totalSize == 0 && errsNoFetched o.errors) = true
        · rw [if_pos hnr]; rfl
        · rw [if_neg hnr]; rfl
      · rw [if_neg hfl]
        by_cases hco : isCompletedObj o = true
        · rw [if_pos hco]; rfl
        · rw [if_neg hco]; rfl
  · rw [if_neg (by simp [hpass])]
    unfold objEvent
    rw [if_pos (by simpa using hpass)]
    rfl

/-- `filterMap` of a guarded `some` is `map` over `filter`. -/
theorem filterMap_guard {α β : Type} (l : List α) (c : α → Bool) (g : α → β) :
    (l.filterMap fun o => if c o then some (g o) else none) = (l.filter c).map g := by
  induction l with
  | nil => rfl
  | cons x xs ih =>
    rw [List.filterMap_cons, List.filter_cons]
    cases hc : c x <;> simp [hc, ih]

/-- Filtering with a conjunction yields no more elements than filtering with
one conjunct. -/
theorem length_filter_and_le {α : Type} (l : List α) (a b : α → Bool) :
    (l.filter fun o => a o && b o).length ≤ (l.filter b).length := by
  induction l with
  | nil => simp
  | cons x xs ih =>
    rw [List.filter_cons, List.filter_cons]
    cases ha : a x <;> cases hb : b x <;> simp [ha, hb] <;> omega

/-- Path operations for the C3 concrete instances: a plain `/`-separator
`join`, identity `dirname`, constant `.jsonl` `extname`. -/
def c3Path : PathOps :=
  { extname := fun _ => str ".jsonl", dirname := fun x => x,
    join := fun a b => a ++ str "/" ++ b }

/-- Options for the C3 concrete instances: download of all types to the
current directory for job `j1`. -/
def c3Opts : ExpOptions := { objectType := none, output := none, jobId := some (str "j1") }

/-- A terminal status whose two completed-with-files objects are `Usage` and
`Product`. -/
def c3CexStatus : JobStatus :=
  { status := str "Failed"
  , objects := some
      [ { name := str "Usage", status := str "Completed", totalSize := 5,
          fileUrls := some [str "u0"], errors := none },
        { name := str "Product", status := str "Completed", totalSize := 3,
          fileUrls := some [str "u1"], errors := none } ]
  , error := none }

/-- Claim C3 as stated is false when one of the two matching
completed-with-files objects is named `'Usage'`: the downloader drops the
`Usage` object before any download decision, and because
`needsIndividualFiles` counts completed objects only after that filter, the
single remaining `Product` object is written to the requested single output
(stdout here, path `none`), not to an individual `<type>-<jobid>.<ext>`
file — so neither of the two required individually-named files is written,
and in fact no file path is written at all. -/
theorem c3_usage_counterexample :
    downloadResultsEvents c3Path c3Opts c3CexStatus
      = [DlEvent.wrote none (str "Product")] ∧
    writtenPaths (downloadResultsEvents c3Path c3Opts c3CexStatus) = [] := by decide

/-- Claim C3, amended: the per-object file guarantee holds for the objects
that survive the `'Usage'` filter. When at least two objects **not named
`'Usage'`** match the caller's requested type (all objects when none was
requested) and are completed with a file URL, the downloader writes each
such object to its own individual file `<type>-<jobid>.<ext>` (first
conjunct; the path construction is `indOutPath`, whose name component is
exactly that pattern), the written paths are pairwise distinct (second
conjunct), and everything written is a non-`'Usage'` completed object with
files (third conjunct) — a `Usage` object is never written even when it is
completed with files. Hypotheses: the lowercased names of the matching
non-`Usage` objects are pairwise distinct (the per-type uniqueness invariant
of a terminal response), and Node's `path.join` with the fixed output
directory is injective in the file name. -/
theorem c3_multi_object_distinct_files (p : PathOps) (opts : ExpOptions) (st : JobStatus)
    (hmulti : 2 ≤ ((validObjects st).filter
        fun o => passesRequested opts o && isCompletedWithFiles o).length)
    (hnames : (((validObjects st).filter
        fun o => passesRequested opts o && isCompletedWithFiles o).map
          fun o => jsToLowerL o.name).Nodup)
    (hjoin : ∀ out, truthyStr opts.output = some out →
        ∀ s t : JSStr, p.join (p.dirname out) s = p.join (p.dirname out) t → s = t) :
    (∀ o ∈ objList st, ¬ o.name = str "Usage" →
        passesRequested opts o = true → isCompletedWithFiles o = true →
        DlEvent.wrote (some (indOutPath p opts o)) o.name ∈
          downloadResultsEvents p opts st) ∧
    (writtenPaths (downloadResultsEvents p opts st)).Nodup ∧
    (∀ pa n, DlEvent.wrote pa n ∈ downloadResultsEvents p opts st →
        ∃ o ∈ objList st, o.name = n ∧ ¬ o.name = str "Usage" ∧
          isCompletedObj o = true ∧ hasFiles o = true) := by
  have hne : (objList st).isEmpty = false := by
    rcases hl : objList st with _ | ⟨x, xs⟩
    · have hv : validObjects st = [] := by
        unfold validObjects
        rw [hl]
        rfl
      rw [hv] at hmulti
      simp at hmulti
    · rfl
  have hni : needsIndividualFiles st = true := by
    unfold needsIndividualFiles
    have hle := length_filter_and_le (validObjects st)
      (fun o => passesRequested opts o) isCompletedWithFiles
    simp only [decide_eq_true_eq]
    omega
  have hev : downloadResultsEvents p opts st
      = (validObjects st).filterMap (objEvent p opts true) := by
    unfold downloadResultsEvents
    rw [if_neg (by simp [hne]), hni]
  refine ⟨?_, ?_, ?_⟩
  · intro o ho hu hpass hcf
    rw [hev]
    refine List.mem_filterMap.mpr ⟨o, ?_, objEvent_write p opts o hpass hcf⟩
    exact List.mem_filter.mpr ⟨ho, by simp [hu]⟩
  · rw [hev]
    unfold writtenPaths
    rw [List.filterMap_filterMap]
    have hstep : (fun o => (objEvent p opts true o).bind wrotePathOf)
        = fun o => if passesRequested opts o && isCompletedWithFiles o then
            some (indOutPath p opts o)
          else none := funext (objEvent_bind_path p opts)
    rw [hstep, filterMap_guard]
    have hmap : (((validObjects st).filter
          fun o => passesRequested opts o && isCompletedWithFiles o).map
            fun o => indOutPath p opts o)
        = ((((validObjects st).filter
            fun o => passesRequested opts o && isCompletedWithFiles o).map
              fun o => jsToLowerL o.name).map
                fun nm => match truthyStr opts.output with
                  | some out =>
                    p.join (p.dirname out) (nm ++ str "-" ++ dlJobId opts ++ dlExt p opts)
                  | none => nm ++ str "-" ++ dlJobId opts ++ dlExt p opts) := by
      rw [List.map_map]
      rfl
    rw [hmap]
    apply List.Nodup.map _ hnames
    intro a b hab
    cases hout : truthyStr opts.output with
    | none =>
      rw [hout] at hab
      simp only at hab
      exact List.append_cancel_right
        (List.append_cancel_right (List.append_cancel_right hab))
    | some out =>
      rw [hout] at hab
      simp only at hab
      have hab2 := hjoin out hout _ _ hab
      exact List.append_cancel_right
        (List.append_cancel_right (List.append_cancel_right hab2))
  · intro pa n hmem
    rw [hev] at hmem
    obtain ⟨o, ho, hoe⟩ := List.mem_filterMap.mp hmem
    obtain ⟨hn, hc, hfi⟩ := objEvent_write_inv p opts true o pa n hoe
    have ho2 := List.mem_filter.mp ho
    refine ⟨o, ho2.1, hn.symm, ?_, hc, hfi⟩
    intro hx
    have hb := ho2.2
    rw [hx] at hb
    simp at hb

/-- A terminal status with a completed `Usage` object with files next to two
completed non-`Usage` objects with files, for the C3 closed instance. -/
def c3Status : JobStatus :=
  { status := str "Failed"
  , objects := some
      [ { name := str "Usage", status := str "Completed", totalSize := 5,
          fileUrls := some [str "u0"], errors := none },
        { name := str "Product", status := str "Completed", totalSize := 3,
          fileUrls := some [str "u1"], errors := none },
        { name := str "Uom", status := str "Completed", totalSize := 2,
          fileUrls := some [str "u2"], errors := none } ]
  , error := none }

/-- Closed instance of the amended C3: with two matching non-`Usage`
completed objects (and a `Usage` object present), each non-`Usage` object is
written to its individual file and the written paths are distinct. -/
theorem c3_multi_object_distinct_files_witness :
    DlEvent.wrote (some (str "product-j1.jsonl")) (str "Product") ∈
      downloadResultsEvents c3Path c3Opts c3Status ∧
    (writtenPaths (downloadResultsEvents c3Path c3Opts c3Status)).Nodup := by
  have h := c3_multi_object_distinct_files c3Path c3Opts c3Status
    (by decide) (by decide)
    (fun out hout => Option.noConfusion hout)
  refine ⟨?_, h.2.1⟩
  exact h.1
    { name := str "Product", status := str "Completed", totalSize := 3,
      fileUrls := some [str "u1"], errors := none }
    (by decide) (by decide) (by decide) (by decide)

/-- Claim C10: no event of the download loop — write or report — concerns an
object named exactly `'Usage'`: such objects are removed before any download
decision. -/
theorem c10_usage_objects_never_processed (p : PathOps) (opts : ExpOptions)
    (st : JobStatus) (e : DlEvent) (he : e ∈ downloadResultsEvents p opts st) :
    e.objName ≠ str "Usage" := by
  unfold downloadResultsEvents at he
  by_cases hemp : (objList st).isEmpty = true
  · rw [if_pos hemp] at he
    exact absurd he (List.not_mem_nil e)
  · rw [if_neg hemp] at he
    obtain ⟨o, ho, hoe⟩ := List.mem_filterMap.mp he
    have hname := (List.mem_filter.mp ho).2
    rw [objEvent_name p opts _ o e hoe]
    intro hx
    rw [hx] at hname
    simp at hname

/-- Path operations for the C10 closed instance. -/
def c10Path : PathOps :=
  { extname := fun _ => str ".jsonl", dirname := fun x => x,
    join := fun a b => a ++ str "/" ++ b }

/-- Options for the C10 closed instance. -/
def c10Opts : ExpOptions := { objectType := none, output := none, jobId := none }

/-- A terminal status carrying a completed `Usage` object with a file —
which must nevertheless not be downloaded — next to a completed `Product`
object. -/
def c10Status : JobStatus :=
  { status := str "Failed"
  , objects := some
      [ { name := str "Usage", status := str "Completed", totalSize := 5,
          fileUrls := some [str "u"], errors := none },
        { name := str "Product", status := str "Completed", totalSize := 3,
          fileUrls := some [str "u1"], errors := none } ]
  , error := none }

/-- Closed instance of C10: the only event processes `Product`, not
`Usage`. -/
theorem c10_usage_objects_never_processed_witness :
    (DlEvent.wrote none (str "Product")).objName ≠ str "Usage" :=
  c10_usage_objects_never_processed c10Path c10Opts c10Status
    (DlEvent.wrote none (str "Product")) (by decide)
